import Mathlib

/-!
Verification development for the sklvq excerpt: the SoftPlus activation
function (src/sklvq/activations/_soft_plus.py) and the
BroydenFletcherGoldfarbShanno solver adapter
(src/sklvq/solvers/broyden_fletcher_goldfarb_shanno.py).

The activation is embedded over exact real arithmetic: a numpy array is a
`List ℝ` and the elementwise numpy expressions become `List.map` of the
scalar kernel.  The steepness parameter `beta` is a rational, a superset of
the Python `int`/`float` values the constructor accepts.  A separate small
extended-value model (`Fl`) captures IEEE-754 double overflow of `np.exp`
and the `inf`/`nan` propagation rules, used to analyse the numerical claims
about very large inputs.
-/

/-- Embedding of the `SoftPlus` instance state: after `__init__` the only
attribute (enforced by `__slots__`) is `beta`. -/
structure SoftPlus where
  beta : ℚ
deriving DecidableEq, Repr

/-- The error message built by `SoftPlus.__init__` for a non-positive
`beta`: `"The activation function {} expects beta > 0, but got beta = {}"`
formatted with the type name and the offending value. -/
def softPlusErrMsg (beta : ℚ) : String :=
  "The activation function " ++ "SoftPlus" ++
    " expects beta > 0, but got beta = " ++ toString beta

/-- Embedding of `SoftPlus.__init__`: if `beta <= 0` a `ValueError` is
raised (the `error` branch) before any attribute is assigned; otherwise
`self.beta = beta` is executed and the constructed object is returned. -/
def SoftPlus.init (beta : ℚ) : Except String SoftPlus :=
  if beta ≤ 0 then
    Except.error (softPlusErrMsg beta)
  else
    Except.ok (SoftPlus.mk beta)

/-- Scalar kernel of `SoftPlus.__call__`: `np.log(1 + np.exp(self.beta * x))`
at one array element. -/
noncomputable def SoftPlus.valueAt (s : SoftPlus) (t : ℝ) : ℝ :=
  Real.log (1 + Real.exp (s.beta * t))

/-- Scalar kernel of `SoftPlus.gradient`:
`exp = np.exp(self.beta * x); (self.beta * exp) / (1 + exp)`
at one array element. -/
noncomputable def SoftPlus.gradAt (s : SoftPlus) (t : ℝ) : ℝ :=
  (s.beta * Real.exp (s.beta * t)) / (1 + Real.exp (s.beta * t))

/-- Embedding of `SoftPlus.__call__` on an array: numpy broadcasts the
expression elementwise, i.e. maps the scalar kernel over the array. -/
noncomputable def SoftPlus.call (s : SoftPlus) (x : List ℝ) : List ℝ :=
  x.map s.valueAt

/-- Embedding of `SoftPlus.gradient` on an array, elementwise like
`__call__`. -/
noncomputable def SoftPlus.gradient (s : SoftPlus) (x : List ℝ) : List ℝ :=
  x.map s.gradAt

/-- C1 -- For every SoftPlus with `beta > 0` and every input array `x`,
`__call__` returns an array of the same shape whose `i`-th element is
`ln(1 + exp(beta * x_i))`. -/
theorem softplus_value_spec (s : SoftPlus) (x : List ℝ) (h : 0 < s.beta) :
    (s.call x).length = x.length ∧
      ∀ i : ℕ, (s.call x)[i]? =
        (x[i]?).map (fun t => Real.log (1 + Real.exp (s.beta * t))) := by
  refine ⟨by simp [SoftPlus.call], fun i => ?_⟩
  have hk : s.valueAt = fun t => Real.log (1 + Real.exp (s.beta * t)) := rfl
  simp [SoftPlus.call, hk]

/-- Witness for `softplus_value_spec` at `beta = 1`, `x = [0]`. -/
theorem softplus_value_spec_witness :
    ((SoftPlus.mk 1).call [0]).length = 1 ∧
      ((SoftPlus.mk 1).call [0])[0]? =
        some (Real.log (1 + Real.exp ((SoftPlus.mk 1).beta * 0))) := by
  have h := softplus_value_spec (SoftPlus.mk 1) [0] (by norm_num)
  exact ⟨h.1, by simpa using h.2 0⟩

/-- C8 -- With `beta = 2` (a successful construction), `value([0])` is
`[ln 2]` and `gradient([0])` is `[1]`. -/
theorem softplus_beta_two_eval :
    SoftPlus.init 2 = Except.ok (SoftPlus.mk 2) ∧
      (SoftPlus.mk 2).call [0] = [Real.log 2] ∧
      (SoftPlus.mk 2).gradient [0] = [1] := by
  refine ⟨rfl, ?_, ?_⟩
  · simp [SoftPlus.call, SoftPlus.valueAt]
    norm_num
  · simp [SoftPlus.gradient, SoftPlus.gradAt]
    norm_num

/-- C2 -- For every SoftPlus with `beta > 0`, `gradient` is shape-preserving,
each element is `(beta * exp(beta*x_i)) / (1 + exp(beta*x_i))`, this equals
`beta * sigmoid(beta*x_i)` with `sigmoid z = 1/(1+exp(-z))`, and it is the
derivative of the scalar value kernel at `x_i`. -/
theorem softplus_gradient_spec (s : SoftPlus) (x : List ℝ) (h : 0 < s.beta) :
    (s.gradient x).length = x.length ∧
      (∀ i : ℕ, (s.gradient x)[i]? =
        (x[i]?).map (fun t =>
          (s.beta * Real.exp (s.beta * t)) / (1 + Real.exp (s.beta * t)))) ∧
      (∀ t : ℝ, s.gradAt t = s.beta * (1 / (1 + Real.exp (-(s.beta * t))))) ∧
      (∀ t : ℝ, HasDerivAt s.valueAt (s.gradAt t) t) := by
  refine ⟨by simp [SoftPlus.gradient], fun i => ?_, fun t => ?_, fun t => ?_⟩
  · have hk : s.gradAt = fun t =>
        (s.beta * Real.exp (s.beta * t)) / (1 + Real.exp (s.beta * t)) := rfl
    simp [SoftPlus.gradient, hk]
  · have he : Real.exp (-(s.beta * t)) = 1 / Real.exp (s.beta * t) := by
      rw [Real.exp_neg, one_div]
    rw [SoftPlus.gradAt, he]
    have hpos := Real.exp_pos ((s.beta : ℝ) * t)
    field_simp
    ring
  · have hd : HasDerivAt (fun u : ℝ => Real.log (1 + Real.exp (s.beta * u)))
        (Real.exp ((s.beta : ℝ) * t) * ((s.beta : ℝ) * 1) /
          (1 + Real.exp ((s.beta : ℝ) * t))) t :=
      ((((hasDerivAt_id t).const_mul (s.beta : ℝ)).exp).const_add 1).log
        (by positivity)
    have hk : s.valueAt = fun u => Real.log (1 + Real.exp (s.beta * u)) := rfl
    have hg : s.gradAt t =
        Real.exp ((s.beta : ℝ) * t) * ((s.beta : ℝ) * 1) /
          (1 + Real.exp ((s.beta : ℝ) * t)) := by
      rw [SoftPlus.gradAt]; ring_nf
    rw [hk, hg]
    exact hd

/-- Witness for `softplus_gradient_spec` at `beta = 1`, `x = [0]`, `t = 0`. -/
theorem softplus_gradient_spec_witness :
    ((SoftPlus.mk 1).gradient [0]).length = 1 ∧
      HasDerivAt (SoftPlus.mk 1).valueAt ((SoftPlus.mk 1).gradAt 0) 0 := by
  have h := softplus_gradient_spec (SoftPlus.mk 1) [0] (by norm_num)
  exact ⟨h.1, h.2.2.2 0⟩

/-- C6 -- For `beta > 0`: every element of `value(x)` is strictly positive,
and the elementwise value map is strictly increasing in the input. -/
theorem softplus_value_pos_mono (s : SoftPlus) (h : 0 < s.beta) :
    (∀ (x : List ℝ), ∀ v ∈ s.call x, 0 < v) ∧
      (∀ t u : ℝ, t < u → ∀ a ∈ s.call [t], ∀ b ∈ s.call [u], a < b) := by
  have hb : (0 : ℝ) < (s.beta : ℝ) := by exact_mod_cast h
  constructor
  · intro x v hv
    simp only [SoftPlus.call, List.mem_map] at hv
    obtain ⟨t, -, rfl⟩ := hv
    have he := Real.exp_pos ((s.beta : ℝ) * t)
    have h1 : (1 : ℝ) < 1 + Real.exp ((s.beta : ℝ) * t) := by linarith
    simpa [SoftPlus.valueAt] using Real.log_pos h1
  · intro t u htu a ha b hb'
    simp only [SoftPlus.call, List.mem_map, List.mem_singleton] at ha hb'
    obtain ⟨t', rfl, rfl⟩ := ha
    obtain ⟨u', rfl, rfl⟩ := hb'
    have hmul : (s.beta : ℝ) * t' < (s.beta : ℝ) * u' :=
      mul_lt_mul_of_pos_left htu hb
    have hexp : Real.exp ((s.beta : ℝ) * t') < Real.exp ((s.beta : ℝ) * u') :=
      Real.exp_lt_exp.mpr hmul
    have hpos : (0 : ℝ) < 1 + Real.exp ((s.beta : ℝ) * t') := by positivity
    exact Real.log_lt_log hpos (by linarith)

/-- Witness for `softplus_value_pos_mono` at `beta = 1`: the value at `0` is
positive and the value at `0` is below the value at `1`. -/
theorem softplus_value_pos_mono_witness :
    0 < (SoftPlus.mk 1).valueAt 0 ∧
      (SoftPlus.mk 1).valueAt 0 < (SoftPlus.mk 1).valueAt 1 := by
  have h := softplus_value_pos_mono (SoftPlus.mk 1) (by norm_num)
  refine ⟨h.1 [0] _ (by simp [SoftPlus.call]), ?_⟩
  exact h.2 0 1 (by norm_num) _ (by simp [SoftPlus.call]) _ (by simp [SoftPlus.call])

/-- C7 -- For `beta > 0` and any input array, every element of
`gradient(x)` lies strictly between `0` and `beta`. -/
theorem softplus_gradient_bounds (s : SoftPlus) (h : 0 < s.beta)
    (x : List ℝ) : ∀ g ∈ s.gradient x, 0 < g ∧ g < (s.beta : ℝ) := by
  have hb : (0 : ℝ) < (s.beta : ℝ) := by exact_mod_cast h
  intro g hg
  simp only [SoftPlus.gradient, List.mem_map] at hg
  obtain ⟨t, -, rfl⟩ := hg
  have he := Real.exp_pos ((s.beta : ℝ) * t)
  have hden : (0 : ℝ) < 1 + Real.exp ((s.beta : ℝ) * t) := by linarith
  constructor
  · exact div_pos (mul_pos hb he) hden
  · rw [SoftPlus.gradAt, div_lt_iff₀ hden]
    nlinarith

/-- Witness for `softplus_gradient_bounds` at `beta = 1`, `x = [0]`. -/
theorem softplus_gradient_bounds_witness :
    0 < (SoftPlus.mk 1).gradAt 0 ∧
      (SoftPlus.mk 1).gradAt 0 < ((SoftPlus.mk 1).beta : ℝ) :=
  softplus_gradient_bounds (SoftPlus.mk 1) (by norm_num) [0] _
    (by simp [SoftPlus.gradient])

/-- C4 -- Construction with `beta <= 0` raises the `ValueError` whose message
(the explicit concatenation exhibits it) contains the type name `SoftPlus`
and the offending `beta` value; construction with `beta > 0` succeeds. -/
theorem softplus_init_validation (beta : ℚ) :
    (beta ≤ 0 → SoftPlus.init beta = Except.error
      ("The activation function " ++ "SoftPlus" ++
        " expects beta > 0, but got beta = " ++ toString beta)) ∧
      (0 < beta → SoftPlus.init beta = Except.ok (SoftPlus.mk beta)) := by
  constructor
  · intro hle
    simp [SoftPlus.init, hle, softPlusErrMsg]
  · intro hpos
    simp [SoftPlus.init, not_le.mpr hpos]

/-- Witness for `softplus_init_validation` at `beta = 0`, `beta = -1` and
`beta = 2`. -/
theorem softplus_init_validation_witness :
    SoftPlus.init 0 = Except.error
      ("The activation function " ++ "SoftPlus" ++
        " expects beta > 0, but got beta = " ++ toString (0 : ℚ)) ∧
      SoftPlus.init (-1) = Except.error
        ("The activation function " ++ "SoftPlus" ++
          " expects beta > 0, but got beta = " ++ toString (-1 : ℚ)) ∧
      SoftPlus.init 2 = Except.ok (SoftPlus.mk 2) :=
  ⟨(softplus_init_validation 0).1 (by norm_num),
    (softplus_init_validation (-1)).1 (by norm_num),
    (softplus_init_validation 2).2 (by norm_num)⟩

/-- C10 -- Failed construction is atomic: for `beta <= 0` the error is
raised (before the attribute assignment, which is the following statement in
the source), and every successfully constructed object has `beta > 0`, so no
object with an invalid `beta` ever exists. -/
theorem softplus_init_atomic (beta : ℚ) :
    (beta ≤ 0 → SoftPlus.init beta = Except.error (softPlusErrMsg beta)) ∧
      (∀ s : SoftPlus, SoftPlus.init beta = Except.ok s → 0 < s.beta) := by
  constructor
  · intro hle
    simp [SoftPlus.init, hle]
  · intro s hs
    by_cases hle : beta ≤ 0
    · simp [SoftPlus.init, hle] at hs
    · simp [SoftPlus.init, hle] at hs
      rw [← hs]
      exact lt_of_not_le hle

/-- Witness for `softplus_init_atomic` at `beta = -1` (error branch) and
`beta = 1` (success branch). -/
theorem softplus_init_atomic_witness :
    SoftPlus.init (-1) = Except.error (softPlusErrMsg (-1)) ∧
      0 < (SoftPlus.mk 1).beta :=
  ⟨(softplus_init_atomic (-1)).1 (by norm_num),
    (softplus_init_atomic 1).2 (SoftPlus.mk 1) rfl⟩

/-- State-passing embedding of `SoftPlus.__call__`: the method body is a
single `return` of a fresh array computed from `self.beta` and `x`; it
contains no assignment to `self` or to `x` (`*`, `np.exp`, `+`, `np.log` all
allocate new arrays), so the post-state of the instance and of the argument
array equals the pre-state. -/
noncomputable def SoftPlus.callS (s : SoftPlus) (x : List ℝ) :
    List ℝ × SoftPlus × List ℝ :=
  (s.call x, s, x)

/-- State-passing embedding of `SoftPlus.gradient`: the body assigns only
the local `exp` and returns a fresh array; `self` and `x` are not written. -/
noncomputable def SoftPlus.gradientS (s : SoftPlus) (x : List ℝ) :
    List ℝ × SoftPlus × List ℝ :=
  (s.gradient x, s, x)

/-- `n` successive calls of `__call__`, threading the instance state. -/
noncomputable def SoftPlus.callN : ℕ → SoftPlus → List ℝ → SoftPlus
  | 0, s, _ => s
  | Nat.succ n, s, x => SoftPlus.callN n (s.callS x).2.1 x

/-- C9 -- `__call__` and `gradient` have no side effects: the stored `beta`
(the instance state) and the input array are unchanged, and after any number
of calls the instance state is still the original one. -/
theorem softplus_no_side_effects (s : SoftPlus) (x : List ℝ) :
    (s.callS x).2.1 = s ∧ (s.callS x).2.2 = x ∧
      (s.gradientS x).2.1 = s ∧ (s.gradientS x).2.2 = x ∧
      ∀ n : ℕ, SoftPlus.callN n s x = s := by
  refine ⟨rfl, rfl, rfl, rfl, fun n => ?_⟩
  induction n with
  | zero => rfl
  | succ n ih => simpa [SoftPlus.callN, SoftPlus.callS] using ih

/-- Modelled from the spec: `ScipyBaseSolver` is imported by the excerpt but
its definition is not among the provided sources.  Per spec sections 3 and
4.2, its constructor stores a reference to the objective callable, the
underlying-method identifier, and the extra configuration options passed
through verbatim. -/
structure ScipyBaseSolver where
  objective : List ℝ → ℝ
  method : String
  options : List (String × String)

/-- Modelled from the spec: the `ScipyBaseSolver` constructor, storing its
three arguments. -/
def ScipyBaseSolver.init (objective : List ℝ → ℝ) (method : String)
    (options : List (String × String)) : ScipyBaseSolver :=
  ScipyBaseSolver.mk objective method options

/-- Embedding of `BroydenFletcherGoldfarbShanno.__init__`: the body is
`super().__init__(objective, method="BFGS", **kwargs)`.  Python keyword
semantics: if the caller's `kwargs` itself binds `method`, the call raises
`TypeError` (multiple values for a keyword argument); otherwise the base
constructor receives the literal method string `"BFGS"` plus the options. -/
def BroydenFletcherGoldfarbShanno.init (objective : List ℝ → ℝ)
    (kwargs : List (String × String)) : Except String ScipyBaseSolver :=
  if (kwargs.map Prod.fst).contains "method" then
    Except.error
      "TypeError: __init__ got multiple values for keyword argument method"
  else
    Except.ok (ScipyBaseSolver.init objective "BFGS" kwargs)

/-- C5 -- Every successfully constructed BroydenFletcherGoldfarbShanno
adapter has its method identifier fixed to `"BFGS"` whatever keyword options
were passed through, and a caller attempting to override `method` via the
options cannot: that construction raises instead of succeeding. -/
theorem bfgs_method_fixed (objective : List ℝ → ℝ)
    (kwargs : List (String × String)) :
    (∀ st : ScipyBaseSolver,
        BroydenFletcherGoldfarbShanno.init objective kwargs = Except.ok st →
          st.method = "BFGS") ∧
      ((kwargs.map Prod.fst).contains "method" = true →
        ∀ st : ScipyBaseSolver,
          BroydenFletcherGoldfarbShanno.init objective kwargs ≠
            Except.ok st) := by
  constructor
  · intro st hst
    unfold BroydenFletcherGoldfarbShanno.init at hst
    by_cases hm : (kwargs.map Prod.fst).contains "method" = true
    · rw [if_pos hm] at hst
      exact absurd hst (by simp)
    · rw [if_neg hm] at hst
      injection hst with h2
      rw [← h2]
      rfl
  · intro hm st
    unfold BroydenFletcherGoldfarbShanno.init
    rw [if_pos hm]
    simp

/-- Witness for `bfgs_method_fixed`: a constant objective and a pass-through
option bag not binding `method`. -/
theorem bfgs_method_fixed_witness :
    (ScipyBaseSolver.init (fun _ => 0) "BFGS" [("maxiter", "100")]).method =
      "BFGS" :=
  (bfgs_method_fixed (fun _ => 0) [("maxiter", "100")]).1 _ rfl

/-- Extended values of IEEE-754 double arithmetic: a finite value, the two
infinities, or NaN.  The finite case carries the exact real; the model
tracks the overflow of `np.exp` (the operation that overflows first in the
soft-plus formulas) and the standard `inf`/`nan` propagation rules of the
remaining operations, and is otherwise exact. -/
inductive Fl where
  | fin : ℝ → Fl
  | pinf : Fl
  | ninf : Fl
  | nan : Fl

/-- The largest argument for which `np.exp` of a double is finite:
`log(DBL_MAX) ≈ 709.782712893384`; above it `np.exp` returns `inf`. -/
noncomputable def float64ExpOverflow : ℝ := 709.782712893384

/-- IEEE addition on extended values. -/
noncomputable def Fl.add : Fl → Fl → Fl
  | nan, _ => nan
  | _, nan => nan
  | pinf, ninf => nan
  | ninf, pinf => nan
  | pinf, _ => pinf
  | _, pinf => pinf
  | ninf, _ => ninf
  | _, ninf => ninf
  | fin a, fin b => fin (a + b)

/-- IEEE multiplication on extended values. -/
noncomputable def Fl.mul : Fl → Fl → Fl
  | nan, _ => nan
  | _, nan => nan
  | pinf, pinf => pinf
  | pinf, ninf => ninf
  | ninf, pinf => ninf
  | ninf, ninf => pinf
  | pinf, fin b => if 0 < b then pinf else if b < 0 then ninf else nan
  | fin a, pinf => if 0 < a then pinf else if a < 0 then ninf else nan
  | ninf, fin b => if 0 < b then ninf else if b < 0 then pinf else nan
  | fin a, ninf => if 0 < a then ninf else if a < 0 then pinf else nan
  | fin a, fin b => fin (a * b)

/-- IEEE division on extended values; in particular `inf / inf = nan`. -/
noncomputable def Fl.div : Fl → Fl → Fl
  | nan, _ => nan
  | _, nan => nan
  | pinf, pinf => nan
  | pinf, ninf => nan
  | ninf, pinf => nan
  | ninf, ninf => nan
  | pinf, fin b => if 0 ≤ b then pinf else ninf
  | ninf, fin b => if 0 ≤ b then ninf else pinf
  | fin _, pinf => fin 0
  | fin _, ninf => fin 0
  | fin a, fin b =>
      if b = 0 then (if a = 0 then nan else if 0 < a then pinf else ninf)
      else fin (a / b)

/-- `np.exp` on extended values: overflows to `inf` above the double
threshold. -/
noncomputable def Fl.exp : Fl → Fl
  | nan => nan
  | pinf => pinf
  | ninf => fin 0
  | fin a => if float64ExpOverflow < a then pinf else fin (Real.exp a)

/-- `np.log` on extended values: `log(inf) = inf`, `log 0 = -inf`,
`log` of a negative value is `nan`. -/
noncomputable def Fl.log : Fl → Fl
  | nan => nan
  | pinf => pinf
  | ninf => nan
  | fin a => if 0 < a then fin (Real.log a) else if a = 0 then ninf else nan

/-- `SoftPlus.__call__` under double semantics: the literal expression
`np.log(1 + np.exp(self.beta * x))` at one element. -/
noncomputable def SoftPlus.callFl (s : SoftPlus) (t : Fl) : Fl :=
  Fl.log (Fl.add (Fl.fin 1) (Fl.exp (Fl.mul (Fl.fin (s.beta : ℝ)) t)))

/-- `SoftPlus.gradient` under double semantics: in the source `exp` is
computed once and shared; the two occurrences below denote that one pure
value. -/
noncomputable def SoftPlus.gradientFl (s : SoftPlus) (t : Fl) : Fl :=
  Fl.div (Fl.mul (Fl.fin (s.beta : ℝ)) (Fl.exp (Fl.mul (Fl.fin (s.beta : ℝ)) t)))
    (Fl.add (Fl.fin 1) (Fl.exp (Fl.mul (Fl.fin (s.beta : ℝ)) t)))

/-- C3 -- At `beta = 1`, `x = 1000` the naive formulas of the code overflow
under double semantics: `value` returns `inf` (not a finite value close to
`1000`) and `gradient` returns `nan` (from `inf / inf`), so the code is not
computed via a numerically stable identity. -/
theorem softplus_overflow_eval :
    (SoftPlus.mk 1).callFl (Fl.fin 1000) = Fl.pinf ∧
      (SoftPlus.mk 1).gradientFl (Fl.fin 1000) = Fl.nan := by
  have hmul : Fl.mul (Fl.fin (((SoftPlus.mk 1).beta : ℝ))) (Fl.fin 1000) =
      Fl.fin 1000 := by
    show Fl.fin (((SoftPlus.mk 1).beta : ℝ) * 1000) = Fl.fin 1000
    norm_num
  have hexp : Fl.exp (Fl.fin 1000) = Fl.pinf := by
    show (if float64ExpOverflow < (1000 : ℝ) then Fl.pinf
        else Fl.fin (Real.exp 1000)) = Fl.pinf
    rw [if_pos (by norm_num [float64ExpOverflow])]
  constructor
  · unfold SoftPlus.callFl
    rw [hmul, hexp]
    rfl
  · unfold SoftPlus.gradientFl
    rw [hmul, hexp]
    show Fl.div (if (0 : ℝ) < ((SoftPlus.mk 1).beta : ℝ) then Fl.pinf
        else if ((SoftPlus.mk 1).beta : ℝ) < 0 then Fl.ninf else Fl.nan)
      (Fl.add (Fl.fin 1) Fl.pinf) = Fl.nan
    rw [if_pos (by norm_num)]
    rfl
